import Mathlib

/-!
# Key-driven geometry generator of `main.cpp`

A shallow embedding of `KeyCallback` and of the process-wide state it mutates
(`vertices`, `colours`, `DRAW_ELEMENT_TYPE`, `spiralLimit`, `squareIteration`).

Modelling conventions.

* The element type `float` is a type parameter `F` carrying the operations the
  handler uses (`+`, `*`, `/`, unary minus, decimal literals, conversion from
  `int`, `cos`, `sin`).  Theorems hold for every interpretation of these
  operations; exact rational arithmetic is used to evaluate concrete inputs.
* `std::vector<float>` is `List F`; `push_back` appends at the end.
* `size_t` is 64 bit: subtraction on sizes and the conversion of an `int` to a
  size are taken modulo `2 ^ 64`.  `int` is 32 bit: converting a size to `int`
  keeps the low 32 bits in two's complement.
* A run of the handler has no defined result (`none`) when it reads a vector
  element out of range, or when the arithmetic on `int` that forms a vector
  index or the spiral cursor overflows.
* The increment `squareIteration++` is taken in two's complement: from
  `INT_MAX` the counter goes to `INT_MIN`, and the handler carries on.
-/

namespace Graphics

/-- The two values of `DRAW_ELEMENT_TYPE` used by the program. -/
inductive DrawMode where
  | GL_LINE_STRIP
  | GL_TRIANGLES
  deriving DecidableEq, Repr

/-- The keys `KeyCallback` distinguishes (each event is a `GLFW_PRESS`). -/
inductive Key where
  | ESCAPE
  | A
  | Q
  | S
  | W
  | D
  | E
  | OTHER
  deriving DecidableEq, Repr

/-- The `cos` and `sin` of the element type. -/
class Trig (F : Type) where
  cos : F → F
  sin : F → F

/-- The global variables of `main.cpp` that `KeyCallback` reads and writes. -/
structure State (F : Type) where
  vertices : List F
  colours : List F
  DRAW_ELEMENT_TYPE : DrawMode
  spiralLimit : Int
  squareIteration : Int

/-- Largest value of a 32-bit `int`. -/
def INT_MAX : Int := 2147483647

/-- Smallest value of a 32-bit `int`. -/
def INT_MIN : Int := -2147483648

/-- The value an `int` holds after an increment whose exact result is `x`: the low 32 bits
of `x` read in two's complement, so that `INT_MAX + 1` is `INT_MIN`. -/
def wrapInt (x : Int) : Int := (x + 2147483648) % 4294967296 - 2147483648

/-- Number of values of a 64-bit `size_t`. -/
def SIZE_MOD : Int := 18446744073709551616

/-- Conversion of an `int` to `size_t`. -/
def toSizeT (i : Int) : Nat := (i % SIZE_MOD).toNat

/-- Subtraction `a - b` on `size_t`. -/
def sizeSub (a b : Nat) : Nat := toSizeT ((a : Int) - (b : Int))

/-- Addition `a + b` on `size_t`. -/
def sizeAdd (a b : Nat) : Nat := toSizeT ((a : Int) + (b : Int))

/-- Conversion of a `size_t` to `int`: the low 32 bits, read in two's complement. -/
def toInt (u : Nat) : Int := ((u : Int) + 2147483648) % 4294967296 - 2147483648

/-- Addition `a + b` on `int` with a positive `b`; no result on overflow. -/
def addInt (a b : Int) : Option Int := if a + b ≤ INT_MAX then some (a + b) else none

/-- A counted loop `for (int i = 0; i < k; i++)` whose body pushes the elements of `chunk`. -/
def repeatPush {F : Type} : Nat → List F → List F → List F
  | 0, _, acc => acc
  | k + 1, chunk, acc => repeatPush k chunk (acc ++ chunk)

section Handler

variable {F : Type} [Add F] [Mul F] [Div F] [Neg F] [OfScientific F] [IntCast F] [Trig F]

/-- The values of the globals at process start. -/
def initial : State F :=
  { vertices := [], colours := [], DRAW_ELEMENT_TYPE := DrawMode.GL_LINE_STRIP,
    spiralLimit := 90, squareIteration := 1 }

/-- The global `spiralSize`. -/
def spiralSize : F := 0.01

/-- The branch for `GLFW_KEY_A`. -/
def keyA (st : State F) : State F :=
  { st with
    DRAW_ELEMENT_TYPE := DrawMode.GL_LINE_STRIP
    vertices := [-0.5, 0.5, -0.5, -0.5, 0.5, -0.5, 0.5, 0.5, -0.5, 0.5]
    colours := [1.0, 1.0, 1.0,
                1.0, 1.0, 1.0,
                1.0, 1.0, 1.0,
                1.0, 1.0, 1.0,
                1.0, 1.0, 1.0,
                1.0, 1.0, 1.0] }

/-- The body of the midpoint loops: reads `v[i]`, `v[i+2]`, `v[i+1]`, `v[i+3]` and
returns `((v[i] + v[i+2])/2, (v[i+1] + v[i+3])/2)`. -/
def midpointAt (v : List F) (i : Int) : Option (F × F) := do
  let a ← v[toSizeT i]?
  let i2 ← addInt i 2
  let b ← v[toSizeT i2]?
  let i1 ← addInt i 1
  let c ← v[toSizeT i1]?
  let i3 ← addInt i 3
  let d ← v[toSizeT i3]?
  pure ((a + b) / ((2 : Int) : F), (c + d) / ((2 : Int) : F))

/-- The loop `for (int i = start; i < bound; i += 2)` of the `Q` and `E` branches, where
`bound` is a `size_t`; each round pushes the midpoint computed at `i` onto `acc`. -/
def midpointLoop (v : List F) (bound : Nat) (i : Int) (acc : List F) : Option (List F) :=
  if toSizeT i < bound then
    match midpointAt v i with
    | none => none
    | some (x, y) =>
      if i + 2 ≤ INT_MAX then midpointLoop v bound (i + 2) (acc ++ [x, y]) else none
  else some acc
termination_by (INT_MAX - i).toNat
decreasing_by
  simp only [INT_MAX] at *
  omega

/-- The branch for `GLFW_KEY_Q`.  The colour loop tests `squareIteration % 2 == 0` in each
of its 15 rounds; the counter does not change inside the loop, so every round pushes the same
entry. -/
def keyQ (st : State F) : Option (State F) := do
  let squareIteration := wrapInt (st.squareIteration + 1)
  let n := st.vertices.length
  let firstThree ← midpointLoop st.vertices (sizeSub n 2) (toInt (sizeSub (sizeSub n 2) 8)) []
  let m := firstThree.length
  let lastNewX ← firstThree[sizeSub m m]?
  let lastNewY ← firstThree[sizeAdd (sizeSub m m) 1]?
  let firstThree := firstThree ++ [lastNewX, lastNewY]
  let colours :=
    repeatPush 15 (if Int.tmod squareIteration 2 = 0 then [1.0, 0.0, 0.0] else [1.0, 1.0, 1.0])
      st.colours
  pure { st with
    squareIteration := squareIteration
    colours := colours
    vertices := st.vertices ++ firstThree }

/-- The point pushed by the spiral loops at index `i`. -/
def spiralSample (i : Int) : List F :=
  let angle : F := 0.1 * (i : F)
  [(spiralSize * angle) * Trig.cos angle, (spiralSize * angle) * Trig.sin angle]

/-- The loop `for (int i = start; i < limit; i++)` of the `S` and `W` branches: each round
pushes the sample at `i` onto the vertices and runs the inner loop, which pushes `colour`
three times onto the colours. -/
def spiralLoop (colour : List F) (limit : Int) (i : Int) (vs cs : List F) : List F × List F :=
  if i < limit then
    spiralLoop colour limit (i + 1) (vs ++ spiralSample i) (repeatPush 3 colour cs)
  else (vs, cs)
termination_by (limit - i).toNat
decreasing_by omega

/-- The branch for `GLFW_KEY_S`. -/
def keyS (st : State F) : State F :=
  let r := spiralLoop [1.0] st.spiralLimit 0 [] []
  { st with
    DRAW_ELEMENT_TYPE := DrawMode.GL_LINE_STRIP
    vertices := r.1
    colours := r.2 }

/-- The branch for `GLFW_KEY_W`. -/
def keyW (st : State F) : Option (State F) := do
  let beginIter := st.spiralLimit
  let spiralLimit ← addInt beginIter 10
  let r := spiralLoop [1.0, 0.0, 0.0] spiralLimit beginIter st.vertices st.colours
  pure { st with
    spiralLimit := spiralLimit
    vertices := r.1
    colours := r.2 }

/-- The branch for `GLFW_KEY_D`. -/
def keyD (st : State F) : State F :=
  { st with
    DRAW_ELEMENT_TYPE := DrawMode.GL_TRIANGLES
    vertices := [-0.6, -0.4, 0.0, 0.6, 0.6, -0.4]
    colours := [1.0, 0.0, 0.0,
                1.0, 0.0, 0.0,
                1.0, 0.0, 0.0] }

/-- The branch for `GLFW_KEY_E`. -/
def keyE (st : State F) : Option (State F) := do
  let n := st.vertices.length
  let newTriangle ← midpointLoop st.vertices (sizeSub n 3) 0 []
  let m := newTriangle.length
  let _newTriangleLastX ← newTriangle[sizeAdd (sizeSub m m) 4]?
  let _newTriangleLastY ← newTriangle[sizeAdd (sizeSub m m) 5]?
  pure { st with
    vertices := st.vertices ++ newTriangle
    colours := repeatPush 15 [0.0, 0.0, 0.0] st.colours }

/-- The function `KeyCallback` on a key press; escape only asks the window to close. -/
def KeyCallback (st : State F) : Key → Option (State F)
  | Key.ESCAPE => some st
  | Key.A => some (keyA st)
  | Key.Q => keyQ st
  | Key.S => some (keyS st)
  | Key.W => keyW st
  | Key.D => some (keyD st)
  | Key.E => keyE st
  | Key.OTHER => some st

/-- The handler applied to a sequence of key presses, oldest first. -/
def run (st : State F) : List Key → Option (State F)
  | [] => some st
  | k :: ks => (KeyCallback st k).bind fun st1 => run st1 ks

/-- The samples with indices `i, i+1, ..., i+k-1`, in push order. -/
def spiralRun (i : Int) : Nat → List F
  | 0 => []
  | k + 1 => spiralSample i ++ spiralRun (i + 1) k

/-- The colour entry the `Q` branch pushes when the incremented counter is `it`. -/
def insetColour (it : Int) : List F :=
  if Int.tmod it 2 = 0 then [1.0, 0.0, 0.0] else [1.0, 1.0, 1.0]

/-- Midpoints of consecutive points of a flat coordinate list whose previous point is
`(a, b)`. -/
def midsFrom (a b : F) : List F → List F
  | c :: d :: rest =>
    (a + c) / ((2 : Int) : F) :: (b + d) / ((2 : Int) : F) :: midsFrom c d rest
  | _ => []

/-- Midpoints of all pairs of consecutive points of a flat coordinate list. -/
def mids : List F → List F
  | a :: b :: rest => midsFrom a b rest
  | _ => []

end Handler

/-- Exact rational arithmetic for evaluating concrete inputs; `cos` and `sin` are
replaced by their Taylor polynomials of degree two and one. -/
instance ratTrig : Trig ℚ where
  cos := fun x => 1 - x * x / 2
  sin := fun x => x

/-! ## Arithmetic on sizes and indices -/

set_option linter.unusedSectionVars false

theorem toSizeT_natCast (p : Nat) (h : (p : Int) < SIZE_MOD) : toSizeT (p : Int) = p := by
  unfold toSizeT
  rw [Int.emod_eq_of_lt (by omega) h]
  simp

theorem toInt_natCast (p : Nat) (h : p < 2147483648) : toInt p = (p : Int) := by
  unfold toInt
  rw [Int.emod_eq_of_lt (by omega) (by omega)]
  omega

theorem sizeSub_eq (a b : Nat) (h : b ≤ a) (ha : (a : Int) < SIZE_MOD) : sizeSub a b = a - b := by
  unfold sizeSub
  have : ((a : Int) - (b : Int)) = ((a - b : Nat) : Int) := by omega
  rw [this, toSizeT_natCast _ (by omega)]

theorem sizeSub_self (m : Nat) : sizeSub m m = 0 := by
  simp [sizeSub, toSizeT]

/-! ## Loops -/

theorem repeatPush_eq {F : Type} (k : Nat) (chunk acc : List F) :
    repeatPush k chunk acc = acc ++ (List.replicate k chunk).flatten := by
  induction k generalizing acc with
  | zero => simp [repeatPush]
  | succ k ih => simp [repeatPush, ih, List.replicate_succ]

theorem getElem?_append_offset {F : Type} (pre t : List F) (j : Nat) :
    (pre ++ t)[pre.length + j]? = t[j]? := by
  rw [List.getElem?_append_right (by omega)]
  simp

theorem eq_of_length_ten {F : Type} (l : List F) (h : l.length = 10) :
    ∃ x1 y1 x2 y2 x3 y3 x4 y4 x5 y5, l = [x1, y1, x2, y2, x3, y3, x4, y4, x5, y5] := by
  match l, h with
  | [x1, y1, x2, y2, x3, y3, x4, y4, x5, y5], _ => exact ⟨_, _, _, _, _, _, _, _, _, _, rfl⟩

theorem exists_last_five {F : Type} (v : List F) (h : 10 ≤ v.length) :
    ∃ pre x1 y1 x2 y2 x3 y3 x4 y4 x5 y5, v = pre ++ [x1, y1, x2, y2, x3, y3, x4, y4, x5, y5] := by
  obtain ⟨x1, y1, x2, y2, x3, y3, x4, y4, x5, y5, hd⟩ :=
    eq_of_length_ten (v.drop (v.length - 10)) (by rw [List.length_drop]; omega)
  exact ⟨v.take (v.length - 10), x1, y1, x2, y2, x3, y3, x4, y4, x5, y5, by
    rw [← hd, List.take_append_drop]⟩

section Proofs

variable {F : Type} [Add F] [Mul F] [Div F] [Neg F] [OfScientific F] [IntCast F] [Trig F]

theorem spiralLoop_done (colour : List F) (limit i : Int) (vs cs : List F) (h : limit ≤ i) :
    spiralLoop colour limit i vs cs = (vs, cs) := by
  rw [spiralLoop, if_neg (not_lt.mpr h)]

theorem spiralLoop_eq (colour : List F) (k : Nat) (i : Int) (vs cs : List F) :
    spiralLoop colour (i + k) i vs cs
      = (vs ++ spiralRun i k, cs ++ (List.replicate (3 * k) colour).flatten) := by
  induction k generalizing i vs cs with
  | zero => rw [spiralLoop_done] <;> simp [spiralRun]
  | succ k ih =>
    rw [spiralLoop, if_pos (by push_cast; omega)]
    have h : (i + ((k + 1 : Nat) : Int)) = (i + 1) + (k : Int) := by push_cast; ring
    rw [h, ih, repeatPush_eq]
    simp [spiralRun, Nat.mul_succ, List.replicate_add, List.replicate_succ]

theorem spiralRun_length (i : Int) (k : Nat) : (spiralRun i k : List F).length = 2 * k := by
  induction k generalizing i with
  | zero => rfl
  | succ k ih =>
    have h2 : (spiralSample i : List F).length = 2 := rfl
    simp [spiralRun, h2, ih]
    omega

theorem spiralRun_eq_range (i : Int) (k : Nat) :
    (spiralRun i k : List F) = ((List.range k).map fun j : Nat =>
      [0.01 * (0.1 * ((i + j : Int) : F)) * Trig.cos (0.1 * ((i + j : Int) : F)),
       0.01 * (0.1 * ((i + j : Int) : F)) * Trig.sin (0.1 * ((i + j : Int) : F))]).flatten := by
  induction k generalizing i with
  | zero => simp [spiralRun]
  | succ k ih =>
    rw [spiralRun, ih, List.range_succ_eq_map]
    simp only [List.map_cons, List.map_map, List.flatten_cons, Nat.cast_zero, add_zero]
    congr 2
    apply List.map_congr_left
    intro j _
    have e : i + 1 + (j : Int) = i + ((j + 1 : Nat) : Int) := by push_cast; ring
    simp only [Function.comp, Nat.succ_eq_add_one, e]

/-! ## Shape of the results of the fallible branches -/

theorem keyQ_some (st s : State F) (h : keyQ st = some s) :
    ∃ ft : List F, s = { st with
      squareIteration := wrapInt (st.squareIteration + 1)
      colours := st.colours ++
        (List.replicate 15 (insetColour (wrapInt (st.squareIteration + 1)))).flatten
      vertices := st.vertices ++ ft } := by
  simp only [keyQ, Option.bind_eq_bind, Option.pure_def, Option.bind_eq_some,
    Option.some.injEq] at h
  obtain ⟨ft, -, x, -, y, -, rfl⟩ := h
  exact ⟨ft ++ [x, y], by simp [repeatPush_eq, insetColour]⟩

theorem keyE_some (st s : State F) (h : keyE st = some s) :
    ∃ nt : List F, s = { st with
      colours := st.colours ++ (List.replicate 15 [0.0, 0.0, 0.0]).flatten
      vertices := st.vertices ++ nt } := by
  simp only [keyE, Option.bind_eq_bind, Option.pure_def, Option.bind_eq_some,
    Option.some.injEq] at h
  obtain ⟨nt, -, x, -, y, -, rfl⟩ := h
  exact ⟨nt, by simp [repeatPush_eq]⟩

theorem keyW_eq (st : State F) (h : st.spiralLimit + 10 ≤ INT_MAX) :
    keyW st = some { st with
      spiralLimit := st.spiralLimit + 10
      vertices := st.vertices ++ spiralRun st.spiralLimit 10
      colours := st.colours ++ (List.replicate 30 [1.0, 0.0, 0.0]).flatten } := by
  have e := spiralLoop_eq ([1.0, 0.0, 0.0] : List F) 10 st.spiralLimit st.vertices st.colours
  simp only [Nat.cast_ofNat] at e
  simp [keyW, addInt, h, e]

theorem initial_cursor_fits : (initial : State F).spiralLimit + 10 ≤ INT_MAX := by
  show (90 : Int) + 10 ≤ 2147483647
  decide

theorem keyW_some (st s : State F) (h : keyW st = some s) :
    st.spiralLimit + 10 ≤ INT_MAX ∧ s = { st with
      spiralLimit := st.spiralLimit + 10
      vertices := st.vertices ++ spiralRun st.spiralLimit 10
      colours := st.colours ++ (List.replicate 30 [1.0, 0.0, 0.0]).flatten } := by
  by_cases hc : st.spiralLimit + 10 ≤ INT_MAX
  · rw [keyW_eq st hc] at h
    exact ⟨hc, (Option.some.inj h).symm⟩
  · simp [keyW, addInt, hc] at h

theorem keyS_eq (st : State F) :
    keyS st = { st with
      DRAW_ELEMENT_TYPE := DrawMode.GL_LINE_STRIP
      vertices := spiralRun 0 st.spiralLimit.toNat
      colours := (List.replicate (3 * st.spiralLimit.toNat) [1.0]).flatten } := by
  by_cases hc : 0 ≤ st.spiralLimit
  · have e := spiralLoop_eq ([1.0] : List F) st.spiralLimit.toNat 0 [] []
    rw [Int.toNat_of_nonneg hc, zero_add] at e
    simp [keyS, e]
  · have e := spiralLoop_done ([1.0] : List F) st.spiralLimit 0 [] [] (by omega)
    have h0 : st.spiralLimit.toNat = 0 := by omega
    simp [keyS, e, h0, spiralRun]

theorem KeyCallback_spiralLimit (st s : State F) (k : Key) (h : KeyCallback st k = some s) :
    s.spiralLimit = st.spiralLimit + if k = Key.W then 10 else 0 := by
  cases k <;> simp only [KeyCallback, Option.some.injEq] at h
  · subst h; simp
  · subst h; simp [keyA]
  · obtain ⟨ft, rfl⟩ := keyQ_some st s h; simp
  · subst h; simp [keyS]
  · obtain ⟨-, rfl⟩ := keyW_some st s h; simp
  · subst h; simp [keyD]
  · obtain ⟨nt, rfl⟩ := keyE_some st s h; simp
  · subst h; simp

theorem run_spiralLimit (keys : List Key) (st s : State F) (h : run st keys = some s) :
    s.spiralLimit = st.spiralLimit + 10 * (keys.count Key.W : Nat) := by
  induction keys generalizing st with
  | nil =>
    simp only [run, Option.some.injEq] at h
    subst h; simp
  | cons k ks ih =>
    simp only [run, Option.bind_eq_some] at h
    obtain ⟨s1, h1, h2⟩ := h
    rw [ih s1 h2, KeyCallback_spiralLimit st s1 k h1, List.count_cons]
    by_cases hk : k = Key.W
    · subst hk; simp; ring
    · simp [hk]

/-! ## The midpoint loop -/

theorem midpointAt_append (pre rest : List F) (a b c d : F)
    (h : (pre.length : Int) + 3 ≤ INT_MAX) :
    midpointAt (pre ++ a :: b :: c :: d :: rest) (pre.length : Int)
      = some ((a + c) / ((2 : Int) : F), (b + d) / ((2 : Int) : F)) := by
  have hm : INT_MAX < SIZE_MOD := by decide
  have e0 : toSizeT (pre.length : Int) = pre.length + 0 := toSizeT_natCast _ (by omega)
  have e1 : toSizeT ((pre.length : Int) + 1) = pre.length + 1 := by
    have := toSizeT_natCast (pre.length + 1) (by push_cast; omega)
    simpa using this
  have e2 : toSizeT ((pre.length : Int) + 2) = pre.length + 2 := by
    have := toSizeT_natCast (pre.length + 2) (by push_cast; omega)
    simpa using this
  have e3 : toSizeT ((pre.length : Int) + 3) = pre.length + 3 := by
    have := toSizeT_natCast (pre.length + 3) (by push_cast; omega)
    simpa using this
  have a1 : addInt (pre.length : Int) 1 = some ((pre.length : Int) + 1) := by
    unfold addInt; rw [if_pos (by omega)]
  have a2 : addInt (pre.length : Int) 2 = some ((pre.length : Int) + 2) := by
    unfold addInt; rw [if_pos (by omega)]
  have a3 : addInt (pre.length : Int) 3 = some ((pre.length : Int) + 3) := by
    unfold addInt; rw [if_pos h]
  simp only [midpointAt, a1, a2, a3, e0, e1, e2, e3, getElem?_append_offset, Option.bind_eq_bind,
    Option.pure_def, Option.some_bind, List.getElem?_cons_zero, List.getElem?_cons_succ]

theorem midpointLoop_next (v pre rest acc : List F) (a b c d : F) (bound : Nat) (i : Int)
    (hv : v = pre ++ a :: b :: c :: d :: rest) (hi : i = (pre.length : Int))
    (h : (pre.length : Int) + 3 ≤ INT_MAX) (hb : pre.length < bound) :
    midpointLoop v bound i acc
      = midpointLoop v bound (i + 2)
          (acc ++ [(a + c) / ((2 : Int) : F), (b + d) / ((2 : Int) : F)]) := by
  subst hv hi
  have hm : INT_MAX < SIZE_MOD := by decide
  have e0 : toSizeT (pre.length : Int) = pre.length := toSizeT_natCast _ (by omega)
  rw [midpointLoop, e0, if_pos hb, midpointAt_append pre rest a b c d h]
  simp only
  rw [if_pos (by omega)]

theorem midpointLoop_stop (v acc : List F) (bound : Nat) (i : Int) (h : bound ≤ toSizeT i) :
    midpointLoop v bound i acc = some acc := by
  rw [midpointLoop, if_neg (by omega)]

theorem insetLoop_eq (pre : List F) (x1 y1 x2 y2 x3 y3 x4 y4 x5 y5 : F)
    (hn : pre.length + 10 ≤ 2147483648) :
    midpointLoop (pre ++ [x1, y1, x2, y2, x3, y3, x4, y4, x5, y5]) (pre.length + 8)
        (pre.length : Int) []
      = some [(x1 + x2) / ((2 : Int) : F), (y1 + y2) / ((2 : Int) : F),
              (x2 + x3) / ((2 : Int) : F), (y2 + y3) / ((2 : Int) : F),
              (x3 + x4) / ((2 : Int) : F), (y3 + y4) / ((2 : Int) : F),
              (x4 + x5) / ((2 : Int) : F), (y4 + y5) / ((2 : Int) : F)] := by
  have hI : INT_MAX = 2147483647 := rfl
  have hS : SIZE_MOD = 18446744073709551616 := rfl
  rw [midpointLoop_next _ pre [x3, y3, x4, y4, x5, y5] _ x1 y1 x2 y2 _ _ rfl rfl
      (by omega) (by omega)]
  rw [midpointLoop_next _ (pre ++ [x1, y1]) [x4, y4, x5, y5] _ x2 y2 x3 y3 _ _ (by simp)
      (by simp) (by simp; omega) (by simp)]
  rw [midpointLoop_next _ (pre ++ [x1, y1, x2, y2]) [x5, y5] _ x3 y3 x4 y4 _ _ (by simp)
      (by simp; omega) (by simp; omega) (by simp)]
  rw [midpointLoop_next _ (pre ++ [x1, y1, x2, y2, x3, y3]) [] _ x4 y4 x5 y5 _ _ (by simp)
      (by simp; omega) (by simp; omega) (by simp)]
  rw [midpointLoop_stop]
  · simp
  · have : (pre.length : Int) + 2 + 2 + 2 + 2 = ((pre.length + 8 : Nat) : Int) := by
      push_cast; ring
    rw [this, toSizeT_natCast _ (by omega)]

theorem keyQ_of_loop (st : State F) (x y : F) (rest : List F)
    (h : midpointLoop st.vertices (sizeSub st.vertices.length 2)
          (toInt (sizeSub (sizeSub st.vertices.length 2) 8)) [] = some (x :: y :: rest)) :
    keyQ st = some { st with
      squareIteration := wrapInt (st.squareIteration + 1)
      colours := st.colours ++
        (List.replicate 15 (insetColour (wrapInt (st.squareIteration + 1)))).flatten
      vertices := st.vertices ++ ((x :: y :: rest) ++ [x, y]) } := by
  have h1 : sizeAdd 0 1 = 1 := rfl
  simp only [keyQ, h, Option.bind_eq_bind, Option.pure_def, Option.some_bind, sizeSub_self, h1,
    List.getElem?_cons_zero, List.getElem?_cons_succ, repeatPush_eq, insetColour]

theorem keyQ_eq (st : State F) (pre : List F) (x1 y1 x2 y2 x3 y3 x4 y4 x5 y5 : F)
    (hv : st.vertices = pre ++ [x1, y1, x2, y2, x3, y3, x4, y4, x5, y5])
    (hn : pre.length + 10 ≤ 2147483648) :
    keyQ st = some { st with
      squareIteration := wrapInt (st.squareIteration + 1)
      colours := st.colours ++
        (List.replicate 15 (insetColour (wrapInt (st.squareIteration + 1)))).flatten
      vertices := st.vertices ++
        [(x1 + x2) / ((2 : Int) : F), (y1 + y2) / ((2 : Int) : F),
         (x2 + x3) / ((2 : Int) : F), (y2 + y3) / ((2 : Int) : F),
         (x3 + x4) / ((2 : Int) : F), (y3 + y4) / ((2 : Int) : F),
         (x4 + x5) / ((2 : Int) : F), (y4 + y5) / ((2 : Int) : F),
         (x1 + x2) / ((2 : Int) : F), (y1 + y2) / ((2 : Int) : F)] } := by
  have hS : SIZE_MOD = 18446744073709551616 := rfl
  have hlen : st.vertices.length = pre.length + 10 := by simp [hv]
  have h2 : sizeSub st.vertices.length 2 = pre.length + 8 := by
    rw [hlen, sizeSub_eq _ _ (by omega) (by omega)]; omega
  have h8 : sizeSub (pre.length + 8) 8 = pre.length := by
    rw [sizeSub_eq _ _ (by omega) (by omega)]; omega
  have hi : toInt pre.length = (pre.length : Int) := toInt_natCast _ (by omega)
  have hl := insetLoop_eq pre x1 y1 x2 y2 x3 y3 x4 y4 x5 y5 hn
  rw [← hv] at hl
  rw [keyQ_of_loop st _ _ _ (by rw [h2, h8, hi]; exact hl)]
  simp

theorem keyQ_defined (st : State F) (h10 : 10 ≤ st.vertices.length)
    (hn : st.vertices.length ≤ 2147483648) : ∃ s, keyQ st = some s := by
  obtain ⟨pre, x1, y1, x2, y2, x3, y3, x4, y4, x5, y5, hv⟩ := exists_last_five st.vertices h10
  have hp : pre.length + 10 ≤ 2147483648 := by
    have : st.vertices.length = pre.length + 10 := by simp [hv]
    omega
  exact ⟨_, keyQ_eq st pre x1 y1 x2 y2 x3 y3 x4 y4 x5 y5 hv hp⟩

/-! ## The fractal-subdivide branch -/

theorem mids_cons_cons (a b c d : F) (rest : List F) :
    mids (a :: b :: c :: d :: rest)
      = (a + c) / ((2 : Int) : F) :: (b + d) / ((2 : Int) : F) :: mids (c :: d :: rest) := rfl

theorem mids_length : ∀ (t : List F), (mids t).length = 2 * ((t.length - 2) / 2)
  | [] => by simp [mids]
  | [_] => by simp [mids]
  | [_, _] => by simp [mids, midsFrom]
  | [_, _, _] => by simp [mids, midsFrom]
  | a :: b :: c :: d :: rest => by
    rw [mids_cons_cons, List.length_cons, List.length_cons, mids_length (c :: d :: rest)]
    simp only [List.length_cons]
    omega

theorem midpointLoop_mids : ∀ (t pre acc v : List F), v = pre ++ t → v.length ≤ 2147483648 →
    3 ≤ v.length → midpointLoop v (v.length - 3) (pre.length : Int) acc = some (acc ++ mids t)
  | a :: b :: c :: d :: rest, pre, acc, v, hv, hn, h3 => by
    have hI : INT_MAX = 2147483647 := rfl
    have hl : v.length = pre.length + (rest.length + 4) := by simp [hv]
    rw [midpointLoop_next v pre rest acc a b c d _ _ hv rfl (by omega) (by omega)]
    have hi : (pre.length : Int) + 2 = ((pre ++ [a, b]).length : Int) := by simp
    rw [hi, midpointLoop_mids (c :: d :: rest) (pre ++ [a, b]) _ v (by simp [hv]) hn h3,
      mids_cons_cons]
    simp
  | [], pre, acc, v, hv, hn, h3 => by
    have hS : SIZE_MOD = 18446744073709551616 := rfl
    have hl : v.length = pre.length := by simp [hv]
    rw [midpointLoop_stop _ _ _ _ (by rw [toSizeT_natCast _ (by omega)]; omega)]
    simp [mids]
  | [_], pre, acc, v, hv, hn, h3 => by
    have hS : SIZE_MOD = 18446744073709551616 := rfl
    have hl : v.length = pre.length + 1 := by simp [hv]
    rw [midpointLoop_stop _ _ _ _ (by rw [toSizeT_natCast _ (by omega)]; omega)]
    simp [mids]
  | [_, _], pre, acc, v, hv, hn, h3 => by
    have hS : SIZE_MOD = 18446744073709551616 := rfl
    have hl : v.length = pre.length + 2 := by simp [hv]
    rw [midpointLoop_stop _ _ _ _ (by rw [toSizeT_natCast _ (by omega)]; omega)]
    simp [mids, midsFrom]
  | [_, _, _], pre, acc, v, hv, hn, h3 => by
    have hS : SIZE_MOD = 18446744073709551616 := rfl
    have hl : v.length = pre.length + 3 := by simp [hv]
    rw [midpointLoop_stop _ _ _ _ (by rw [toSizeT_natCast _ (by omega)]; omega)]
    simp [mids, midsFrom]
termination_by t => t.length

theorem midpointAt_overflow (v : List F) (i : Int) (h : INT_MAX < i + 2) :
    midpointAt v i = none := by
  have a2 : addInt i 2 = none := by
    unfold addInt; rw [if_neg (by omega)]
  cases hv : v[toSizeT i]? <;> simp [midpointAt, hv, a2]

theorem midpointLoop_overflow (v : List F) (bound : Nat) (hb : 2147483646 < bound) :
    ∀ (k : Nat) (i : Int) (acc : List F), 0 ≤ i → i + 2 * (k : Int) = 2147483646 →
      midpointLoop v bound i acc = none := by
  have hI : INT_MAX = 2147483647 := rfl
  have hS : SIZE_MOD = 18446744073709551616 := rfl
  intro k
  induction k with
  | zero =>
    intro i acc h0 hi
    have e0 : toSizeT i = 2147483646 := by
      have : i = ((2147483646 : Nat) : Int) := by omega
      rw [this, toSizeT_natCast _ (by omega)]
    rw [midpointLoop, e0, if_pos hb, midpointAt_overflow v i (by omega)]
  | succ k ih =>
    intro i acc h0 hi
    have e0 : toSizeT i = i.toNat := by
      have := toSizeT_natCast i.toNat (by omega)
      rwa [Int.toNat_of_nonneg h0] at this
    rw [midpointLoop, e0, if_pos (by omega)]
    cases hm : midpointAt v i with
    | none => rfl
    | some p =>
      obtain ⟨x, y⟩ := p
      simp only
      rw [if_pos (by omega)]
      exact ih (i + 2) _ (by omega) (by push_cast at hi ⊢; omega)

theorem keyE_eq (st : State F) (h3 : 3 ≤ st.vertices.length)
    (hn : st.vertices.length ≤ 2147483648) (h6 : 6 ≤ (mids st.vertices).length) :
    keyE st = some { st with
      vertices := st.vertices ++ mids st.vertices
      colours := st.colours ++ (List.replicate 15 [0.0, 0.0, 0.0]).flatten } := by
  have hS : SIZE_MOD = 18446744073709551616 := rfl
  have hb : sizeSub st.vertices.length 3 = st.vertices.length - 3 :=
    sizeSub_eq _ _ h3 (by omega)
  have hl := midpointLoop_mids st.vertices [] [] st.vertices rfl hn h3
  simp only [List.length_nil, Nat.cast_zero, List.nil_append] at hl
  have h4 : sizeAdd (sizeSub (mids st.vertices).length (mids st.vertices).length) 4 = 4 := by
    rw [sizeSub_self]; rfl
  have h5 : sizeAdd (sizeSub (mids st.vertices).length (mids st.vertices).length) 5 = 5 := by
    rw [sizeSub_self]; rfl
  obtain ⟨x, hx⟩ : ∃ x, (mids st.vertices)[4]? = some x :=
    ⟨_, List.getElem?_eq_getElem (by omega)⟩
  obtain ⟨y, hy⟩ : ∃ y, (mids st.vertices)[5]? = some y :=
    ⟨_, List.getElem?_eq_getElem (by omega)⟩
  simp only [keyE, hb, hl, Option.bind_eq_bind, Option.pure_def, Option.some_bind, h4, h5, hx, hy,
    repeatPush_eq]

theorem keyE_short (st : State F) (h3 : 3 ≤ st.vertices.length)
    (hn : st.vertices.length ≤ 2147483648) (h6 : (mids st.vertices).length < 6) :
    keyE st = none := by
  have hS : SIZE_MOD = 18446744073709551616 := rfl
  have hb : sizeSub st.vertices.length 3 = st.vertices.length - 3 :=
    sizeSub_eq _ _ h3 (by omega)
  have hl := midpointLoop_mids st.vertices [] [] st.vertices rfl hn h3
  simp only [List.length_nil, Nat.cast_zero, List.nil_append] at hl
  have h5 : sizeAdd (sizeSub (mids st.vertices).length (mids st.vertices).length) 5 = 5 := by
    rw [sizeSub_self]; rfl
  have hy : (mids st.vertices)[5]? = none := List.getElem?_eq_none (by omega)
  simp only [keyE, hb, hl, Option.bind_eq_bind, Option.pure_def, Option.some_bind, h5, hy]
  cases (mids st.vertices)[sizeAdd (sizeSub (mids st.vertices).length (mids st.vertices).length) 4]? <;> rfl

theorem keyE_tiny (st : State F) (h3 : st.vertices.length < 3) : keyE st = none := by
  have h30 : sizeSub 0 3 = 18446744073709551613 := by decide
  have h31 : sizeSub 1 3 = 18446744073709551614 := by decide
  have h32 : sizeSub 2 3 = 18446744073709551615 := by decide
  have t0 : toSizeT 0 = 0 := by decide
  have t2 : toSizeT 2 = 2 := by decide
  have a2 : addInt 0 2 = some 2 := by decide
  match hv : st.vertices with
  | [] =>
    simp only [keyE, hv, List.length_nil, h30]
    rw [midpointLoop, t0, if_pos (by omega)]
    simp [midpointAt, t0]
  | [a] =>
    simp only [keyE, hv, List.length_singleton, h31]
    rw [midpointLoop, t0, if_pos (by omega)]
    simp [midpointAt, t0, a2, t2]
  | [a, b] =>
    simp only [keyE, hv, List.length_cons, List.length_nil, h32]
    rw [midpointLoop, t0, if_pos (by omega)]
    simp [midpointAt, t0, a2, t2]
  | a :: b :: c :: rest =>
    rw [hv] at h3
    simp at h3
    omega
/-! ## The inset branch outside the range of `int` -/

theorem keyQ_narrowed (st : State F) (h : st.vertices.length = 2147483658) :
    keyQ st = none := by
  have hb : sizeSub 2147483658 2 = 2147483656 := by decide
  have hi : toInt (sizeSub 2147483656 8) = -2147483648 := by decide
  have ht : toSizeT (-2147483648) = 18446744071562067968 := by decide
  have hl : midpointLoop st.vertices 2147483656 (-2147483648) [] = some [] :=
    midpointLoop_stop _ _ _ _ (by rw [ht]; omega)
  simp only [keyQ, h, hb, hi, hl, Option.bind_eq_bind, Option.some_bind, List.length_nil,
    sizeSub_self, List.getElem?_nil, Option.none_bind]

/-! ## The counters -/

theorem wrapInt_of_fits (x : Int) (hlo : INT_MIN ≤ x) (hhi : x ≤ INT_MAX) : wrapInt x = x := by
  have h1 : INT_MIN = -2147483648 := rfl
  have h2 : INT_MAX = 2147483647 := rfl
  unfold wrapInt
  omega

theorem wrapInt_fits (x : Int) : INT_MIN ≤ wrapInt x ∧ wrapInt x ≤ INT_MAX := by
  have h1 : INT_MIN = -2147483648 := rfl
  have h2 : INT_MAX = 2147483647 := rfl
  unfold wrapInt
  omega

theorem wrapInt_add (x y : Int) : wrapInt (wrapInt x + y) = wrapInt (x + y) := by
  unfold wrapInt
  omega

theorem wrapInt_even (x : Int) : Even (wrapInt x) ↔ Even x := by
  rw [Int.even_iff, Int.even_iff]
  unfold wrapInt
  omega

theorem KeyCallback_squareIteration (st s : State F) (k : Key)
    (h : KeyCallback st k = some s) :
    s.squareIteration
      = if k = Key.Q then wrapInt (st.squareIteration + 1) else st.squareIteration := by
  cases k <;> simp only [KeyCallback, Option.some.injEq] at h
  · subst h; simp
  · subst h; simp [keyA]
  · obtain ⟨ft, rfl⟩ := keyQ_some st s h; simp
  · subst h; simp [keyS]
  · obtain ⟨-, rfl⟩ := keyW_some st s h; simp
  · subst h; simp [keyD]
  · obtain ⟨nt, rfl⟩ := keyE_some st s h; simp
  · subst h; simp

theorem run_squareIteration (keys : List Key) (st s : State F) (h : run st keys = some s)
    (hlo : INT_MIN ≤ st.squareIteration) (hhi : st.squareIteration ≤ INT_MAX) :
    s.squareIteration = wrapInt (st.squareIteration + (keys.count Key.Q : Nat)) := by
  induction keys generalizing st with
  | nil =>
    simp only [run, Option.some.injEq] at h
    subst h
    simp [wrapInt_of_fits _ hlo hhi]
  | cons k ks ih =>
    simp only [run, Option.bind_eq_some] at h
    obtain ⟨s1, h1, h2⟩ := h
    have hk := KeyCallback_squareIteration st s1 k h1
    by_cases hq : k = Key.Q
    · rw [if_pos hq] at hk
      have hf := wrapInt_fits (st.squareIteration + 1)
      rw [ih s1 h2 (by rw [hk]; exact hf.1) (by rw [hk]; exact hf.2), hk, wrapInt_add, hq,
        List.count_cons_self]
      congr 1
      push_cast
      ring
    · rw [if_neg hq] at hk
      rw [ih s1 h2 (by rw [hk]; exact hlo) (by rw [hk]; exact hhi), hk,
        List.count_cons_of_ne (fun c => hq c.symm)]

theorem insetColour_parity (it : Int) :
    (insetColour it : List F) = if Even it then [1.0, 0.0, 0.0] else [1.0, 1.0, 1.0] := by
  unfold insetColour
  have : Int.tmod it 2 = 0 ↔ Even it := by
    rw [← Int.dvd_iff_tmod_eq_zero, even_iff_two_dvd]
  by_cases h : Even it
  · rw [if_pos h, if_pos (this.mpr h)]
  · rw [if_neg h, if_neg (fun c => h (this.mp c))]

/-! ## Key sequences -/

theorem run_append (ks1 ks2 : List Key) (st : State F) :
    run st (ks1 ++ ks2) = (run st ks1).bind fun s => run s ks2 := by
  induction ks1 generalizing st with
  | nil => rfl
  | cons k ks ih =>
    rw [List.cons_append, run, run]
    cases KeyCallback st k with
    | none => rfl
    | some s1 => simp only [Option.some_bind, ih]

theorem run_replicate_W (k : Nat) (st : State F)
    (h : st.spiralLimit + 10 * (k : Int) ≤ INT_MAX) :
    ∃ s, run st (List.replicate k Key.W) = some s ∧
      s.vertices.length = st.vertices.length + 20 * k := by
  induction k generalizing st with
  | zero => exact ⟨st, rfl, rfl⟩
  | succ k ih =>
    have hc : st.spiralLimit + 10 ≤ INT_MAX := by push_cast at h; omega
    have hk : st.spiralLimit + 10 + 10 * (k : Int) ≤ INT_MAX := by push_cast at h; omega
    obtain ⟨s, hs, hl⟩ := ih { st with
      spiralLimit := st.spiralLimit + 10
      vertices := st.vertices ++ spiralRun st.spiralLimit 10
      colours := st.colours ++ (List.replicate 30 [1.0, 0.0, 0.0]).flatten } hk
    refine ⟨s, ?_, ?_⟩
    · rw [List.replicate_succ, run, KeyCallback, keyW_eq st hc]
      exact hs
    · rw [hl]
      simp [spiralRun_length]
      omega

theorem run_square_fractal (st : State F) :
    run st [Key.A, Key.E] = some { keyA st with
      vertices := (keyA st).vertices ++ mids (keyA st).vertices
      colours := (keyA st).colours ++ (List.replicate 15 [0.0, 0.0, 0.0]).flatten } := by
  have hE := keyE_eq (keyA st) (by simp [keyA]) (by simp [keyA])
    (by rw [mids_length]; simp [keyA])
  have hA : KeyCallback st Key.A = some (keyA st) := rfl
  have hE1 : KeyCallback (keyA st) Key.E = keyE (keyA st) := rfl
  rw [run, hA, Option.some_bind, run, hE1, hE]
  rfl

/-! ## The inset branch on short lists -/

theorem keyQ_of_loop_nil (st : State F)
    (h : midpointLoop st.vertices (sizeSub st.vertices.length 2)
          (toInt (sizeSub (sizeSub st.vertices.length 2) 8)) [] = some []) :
    keyQ st = none := by
  simp only [keyQ, h, Option.bind_eq_bind, Option.some_bind, List.length_nil, sizeSub_self,
    List.getElem?_nil, Option.none_bind]

theorem midpointLoop_first_read (v acc : List F) (bound : Nat) (i : Int)
    (hb : toSizeT i < bound) (hv : v.length ≤ toSizeT i) :
    midpointLoop v bound i acc = none := by
  have hr : v[toSizeT i]? = none := List.getElem?_eq_none hv
  have hm : midpointAt v i = none := by
    simp only [midpointAt, hr, Option.bind_eq_bind, Option.none_bind]
  rw [midpointLoop, if_pos hb, hm]

theorem keyQ_short (st : State F) (h : st.vertices.length < 10) : keyQ st = none := by
  generalize hl : st.vertices.length = n at h
  have stop : ∀ (bound : Nat) (i : Int), sizeSub n 2 = bound →
      toInt (sizeSub bound 8) = i → bound ≤ toSizeT i → keyQ st = none := by
    intro bound i h2 h8 hs
    apply keyQ_of_loop_nil
    rw [hl, h2, h8]
    exact midpointLoop_stop _ _ _ _ hs
  have body : ∀ (bound : Nat) (i : Int), sizeSub n 2 = bound →
      toInt (sizeSub bound 8) = i → toSizeT i < bound → n ≤ toSizeT i → keyQ st = none := by
    intro bound i h2 h8 hb hv
    have hloop : midpointLoop st.vertices bound i [] = none :=
      midpointLoop_first_read _ _ _ _ hb (by rw [hl]; exact hv)
    simp only [keyQ, hl, h2, h8, hloop, Option.bind_eq_bind, Option.none_bind]
  interval_cases n
  · exact body 18446744073709551614 (-10) (by decide) (by decide) (by decide) (by decide)
  · exact body 18446744073709551615 (-9) (by decide) (by decide) (by decide) (by decide)
  · exact stop 0 (-8) (by decide) (by decide) (by decide)
  · exact stop 1 (-7) (by decide) (by decide) (by decide)
  · exact stop 2 (-6) (by decide) (by decide) (by decide)
  · exact stop 3 (-5) (by decide) (by decide) (by decide)
  · exact stop 4 (-4) (by decide) (by decide) (by decide)
  · exact stop 5 (-3) (by decide) (by decide) (by decide)
  · exact stop 6 (-2) (by decide) (by decide) (by decide)
  · exact stop 7 (-1) (by decide) (by decide) (by decide)
theorem run_square_inset (st : State F) :
    run st [Key.A, Key.Q] = some { keyA st with
      squareIteration := wrapInt (st.squareIteration + 1)
      colours := (keyA st).colours ++
        (List.replicate 15 (insetColour (wrapInt (st.squareIteration + 1)))).flatten
      vertices := (keyA st).vertices ++
        [(-0.5 + -0.5) / ((2 : Int) : F), (0.5 + -0.5) / ((2 : Int) : F),
         (-0.5 + 0.5) / ((2 : Int) : F), (-0.5 + -0.5) / ((2 : Int) : F),
         (0.5 + 0.5) / ((2 : Int) : F), (-0.5 + 0.5) / ((2 : Int) : F),
         (0.5 + -0.5) / ((2 : Int) : F), (0.5 + 0.5) / ((2 : Int) : F),
         (-0.5 + -0.5) / ((2 : Int) : F), (0.5 + -0.5) / ((2 : Int) : F)] } := by
  have hA : KeyCallback st Key.A = some (keyA st) := rfl
  have hQ1 : KeyCallback (keyA st) Key.Q = keyQ (keyA st) := rfl
  have hQ := keyQ_eq (keyA st) [] _ _ _ _ _ _ _ _ _ _ rfl (by simp)
  rw [run, hA, Option.some_bind, run, hQ1, hQ]
  rfl

theorem run_replicate_AQ (k : Nat) (st : State F) (hlo : INT_MIN ≤ st.squareIteration)
    (hhi : st.squareIteration + (k : Int) ≤ INT_MAX) :
    ∃ s, run st (List.replicate k [Key.A, Key.Q]).flatten = some s ∧
      s.squareIteration = st.squareIteration + (k : Int) := by
  induction k generalizing st with
  | zero => exact ⟨st, rfl, by simp⟩
  | succ k ih =>
    have hw : wrapInt (st.squareIteration + 1) = st.squareIteration + 1 :=
      wrapInt_of_fits _ (by omega) (by push_cast at hhi; omega)
    obtain ⟨s, hs, hc⟩ := ih { keyA st with
      squareIteration := wrapInt (st.squareIteration + 1)
      colours := (keyA st).colours ++
        (List.replicate 15 (insetColour (wrapInt (st.squareIteration + 1)))).flatten
      vertices := (keyA st).vertices ++
        [(-0.5 + -0.5) / ((2 : Int) : F), (0.5 + -0.5) / ((2 : Int) : F),
         (-0.5 + 0.5) / ((2 : Int) : F), (-0.5 + -0.5) / ((2 : Int) : F),
         (0.5 + 0.5) / ((2 : Int) : F), (-0.5 + 0.5) / ((2 : Int) : F),
         (0.5 + -0.5) / ((2 : Int) : F), (0.5 + 0.5) / ((2 : Int) : F),
         (-0.5 + -0.5) / ((2 : Int) : F), (0.5 + -0.5) / ((2 : Int) : F)] }
      (by show INT_MIN ≤ wrapInt (st.squareIteration + 1); rw [hw]; omega)
      (by show wrapInt (st.squareIteration + 1) + (k : Int) ≤ INT_MAX
          rw [hw]; push_cast at hhi; omega)
    refine ⟨s, ?_, ?_⟩
    · rw [List.replicate_succ, List.flatten_cons, run_append, run_square_inset,
        Option.some_bind]
      exact hs
    · rw [hc]
      show wrapInt (st.squareIteration + 1) + (k : Int) = st.squareIteration + ((k + 1 : Nat) : Int)
      rw [hw]
      push_cast
      ring

end Proofs

/-! ## Claims -/

section Claims

variable {F : Type} [Add F] [Mul F] [Div F] [Neg F] [OfScientific F] [IntCast F] [Trig F]

/-- C1: the colour list does not stay 1.5 times as long as the point list.  From the initial
state one reset-to-square press leaves 10 position floats and 18 colour floats, where
lock-step would need 15. -/
theorem square_breaks_lockstep :
    ∃ s : State F, KeyCallback initial Key.A = some s ∧ s.vertices.length = 10 ∧
      s.colours.length = 18 ∧ 2 * s.colours.length ≠ 3 * s.vertices.length :=
  ⟨keyA initial, rfl, rfl, rfl, by simp [keyA]⟩

/-- C2, as stated, fails: after one extend-spiral press from the initial state, a new-spiral
press leaves 100 points (200 floats) and the cursor at 100, not 90 points and 90. -/
theorem newSpiral_after_extend_counterexample :
    ∃ s0 s : State ℚ, KeyCallback initial Key.W = some s0 ∧ KeyCallback s0 Key.S = some s ∧
      s.vertices.length = 200 ∧ s.spiralLimit = 100 ∧
      ¬ (s.vertices.length = 180 ∧ s.spiralLimit = 90) := by
  refine ⟨_, _, keyW_eq initial (by decide), rfl, ?_, ?_, ?_⟩
  · rw [keyS_eq]
    simp [spiralRun_length, initial]
  · simp [keyS, initial]
  · simp [keyS, initial]

/-- C2 (amended): in every state, with spiral cursor c, a new-spiral press sets the mode to
line-strip, leaves the cursor at c and replaces the point list by exactly c points (none when
c is negative), the points (0.01 θ cos θ, 0.01 θ sin θ) for θ = 0.1 i and i = 0, ..., c - 1.
The cursor is 90 in the initial state, and 90 + 10 w after a key sequence from the initial
state that holds w extend-spiral presses and whose presses all have a defined result (which
requires that no extend-spiral press overflows the `int` cursor). -/
theorem newSpiral_emits_cursor_points (st : State F) :
    ∃ s, KeyCallback st Key.S = some s ∧
      s.DRAW_ELEMENT_TYPE = DrawMode.GL_LINE_STRIP ∧
      s.spiralLimit = st.spiralLimit ∧
      s.vertices.length = 2 * st.spiralLimit.toNat ∧
      s.vertices = ((List.range st.spiralLimit.toNat).map fun i : Nat =>
        [0.01 * (0.1 * ((i : Int) : F)) * Trig.cos (0.1 * ((i : Int) : F)),
         0.01 * (0.1 * ((i : Int) : F)) * Trig.sin (0.1 * ((i : Int) : F))]).flatten ∧
      (initial : State F).spiralLimit = 90 ∧
      (∀ keys : List Key, run initial keys = some st →
        st.spiralLimit = 90 + 10 * (keys.count Key.W : Nat)) := by
  refine ⟨keyS st, rfl, ?_, ?_, ?_, ?_, rfl, ?_⟩
  · rw [keyS_eq]
  · rw [keyS_eq]
  · rw [keyS_eq]
    simp only [spiralRun_length]
  · rw [keyS_eq]
    simp only [spiralRun_eq_range, zero_add]
  · intro keys h
    rw [run_spiralLimit keys initial st h]
    rfl

/-- Witness for C2 (amended): the state after one extend-spiral press from the initial state,
in which the cursor is 100 and a new-spiral press leaves 100 points. -/
theorem newSpiral_emits_cursor_points_witness :
    ∃ st s : State ℚ, run initial [Key.W] = some st ∧ KeyCallback st Key.S = some s ∧
      st.spiralLimit = 90 + 10 * (([Key.W].count Key.W : Nat) : Int) ∧
      s.spiralLimit = st.spiralLimit ∧
      s.vertices.length = 2 * st.spiralLimit.toNat :=
  have h : run (initial : State ℚ) [Key.W] = some _ := by
    rw [run, KeyCallback, keyW_eq (initial : State ℚ) (by decide)]
    rfl
  have t := newSpiral_emits_cursor_points
    ({ (initial : State ℚ) with
      spiralLimit := (initial : State ℚ).spiralLimit + 10
      vertices := (initial : State ℚ).vertices ++ spiralRun (initial : State ℚ).spiralLimit 10
      colours := (initial : State ℚ).colours ++ (List.replicate 30 [1.0, 0.0, 0.0]).flatten }
      : State ℚ)
  t.elim fun s hs => ⟨_, s, h, hs.1, hs.2.2.2.2.2.2 [Key.W] h, hs.2.2.1, hs.2.2.2.1⟩

/-- C3: when the cursor `c` satisfies `c + 10 ≤ INT_MAX`, an extend-spiral press keeps the
point list as a prefix and appends exactly 10 points (20 floats), the points
(0.01 θ cos θ, 0.01 θ sin θ) for θ = 0.1 i and i = c, c + 1, ..., c + 9 in this order; it
sets the cursor to c + 10 and leaves the primitive mode unchanged. -/
theorem extendSpiral_appends_ten_samples (st : State F)
    (h : st.spiralLimit + 10 ≤ INT_MAX) :
    ∃ s, KeyCallback st Key.W = some s ∧
      s.vertices = st.vertices ++
        ((List.range 10).map fun k : Nat =>
          [0.01 * (0.1 * ((st.spiralLimit + k : Int) : F))
              * Trig.cos (0.1 * ((st.spiralLimit + k : Int) : F)),
           0.01 * (0.1 * ((st.spiralLimit + k : Int) : F))
              * Trig.sin (0.1 * ((st.spiralLimit + k : Int) : F))]).flatten ∧
      s.vertices.length = st.vertices.length + 20 ∧
      s.spiralLimit = st.spiralLimit + 10 ∧
      s.DRAW_ELEMENT_TYPE = st.DRAW_ELEMENT_TYPE := by
  refine ⟨_, keyW_eq st h, ?_, ?_, rfl, rfl⟩
  · simp only [spiralRun_eq_range]
  · simp [spiralRun_length]

/-- Witness for C3: the initial state, whose cursor is 90. -/
theorem extendSpiral_appends_ten_samples_witness :
    (initial : State ℚ).spiralLimit + 10 ≤ INT_MAX ∧
    ∃ s : State ℚ, KeyCallback initial Key.W = some s ∧
      s.vertices = (initial : State ℚ).vertices ++
        ((List.range 10).map fun k : Nat =>
          [0.01 * (0.1 * (((initial : State ℚ).spiralLimit + k : Int) : ℚ))
              * Trig.cos (0.1 * (((initial : State ℚ).spiralLimit + k : Int) : ℚ)),
           0.01 * (0.1 * (((initial : State ℚ).spiralLimit + k : Int) : ℚ))
              * Trig.sin (0.1 * (((initial : State ℚ).spiralLimit + k : Int) : ℚ))]).flatten ∧
      s.vertices.length = (initial : State ℚ).vertices.length + 20 ∧
      s.spiralLimit = (initial : State ℚ).spiralLimit + 10 ∧
      s.DRAW_ELEMENT_TYPE = (initial : State ℚ).DRAW_ELEMENT_TYPE :=
  ⟨by decide, extendSpiral_appends_ten_samples initial (by decide)⟩

/-- C4: from every state a reset-to-square press sets the mode to line-strip, makes the point
list exactly (-0.5, 0.5), (-0.5, -0.5), (0.5, -0.5), (0.5, 0.5), (-0.5, 0.5), whose fifth
point repeats the first, and makes the colour list consist of the component 1.0 only; neither
list keeps anything of its previous content. -/
theorem resetSquare_result (st : State F) :
    ∃ s, KeyCallback st Key.A = some s ∧
      s.DRAW_ELEMENT_TYPE = DrawMode.GL_LINE_STRIP ∧
      s.vertices = [-0.5, 0.5, -0.5, -0.5, 0.5, -0.5, 0.5, 0.5, -0.5, 0.5] ∧
      s.vertices.length = 2 * 5 ∧
      s.vertices.take 2 = s.vertices.drop 8 ∧
      s.colours = List.replicate 18 1.0 ∧
      ∀ c ∈ s.colours, c = 1.0 := by
  refine ⟨keyA st, rfl, rfl, rfl, rfl, rfl, rfl, ?_⟩
  intro c hc
  have e : (keyA st).colours = List.replicate 18 1.0 := rfl
  rw [e] at hc
  exact List.eq_of_mem_replicate hc

/-- C6: from every state a reset-to-triangle press sets the mode to independent triangles,
makes the point list exactly (-0.6, -0.4), (0.0, 0.6), (0.6, -0.4) and makes the colour list
three entries (1, 0, 0). -/
theorem resetTriangle_result (st : State F) :
    ∃ s, KeyCallback st Key.D = some s ∧
      s.DRAW_ELEMENT_TYPE = DrawMode.GL_TRIANGLES ∧
      s.vertices = [-0.6, -0.4, 0.0, 0.6, 0.6, -0.4] ∧
      s.vertices.length = 2 * 3 ∧
      s.colours = [1.0, 0.0, 0.0] ++ [1.0, 0.0, 0.0] ++ [1.0, 0.0, 0.0] :=
  ⟨keyD st, rfl, rfl, rfl, rfl, rfl⟩

/-- C7: an extend-spiral press does not colour its samples in lock-step.  From the initial
state it appends 10 points (20 floats) and 30 entries (1, 0, 0), that is 90 colour floats,
three entries for each appended point. -/
theorem extendSpiral_colour_count :
    ∃ s : State F, KeyCallback initial Key.W = some s ∧
      s.vertices.length = 20 ∧
      s.colours = (List.replicate 30 [1.0, 0.0, 0.0]).flatten ∧
      s.colours.length = 90 ∧ s.colours.length ≠ 30 := by
  refine ⟨_, keyW_eq initial initial_cursor_fits, ?_, ?_, ?_, ?_⟩
  · simp [spiralRun_length, initial]
  · simp [initial]
  · simp [initial]
  · simp [initial]

/-- C5: in the state a reset-to-square press produces, one inset-iterate press keeps the 5
points (10 floats) as a prefix and appends 5 points (10 floats), giving 10 points, and appends
15 RGB entries (45 floats) to the colour list. -/
theorem inset_on_square (st : State F) :
    ∃ sq s, KeyCallback st Key.A = some sq ∧ KeyCallback sq Key.Q = some s ∧
      sq.vertices.length = 2 * 5 ∧ s.vertices.length = 2 * 10 ∧
      (∃ new, s.vertices = sq.vertices ++ new ∧ new.length = 2 * 5) ∧
      (∃ cs, s.colours = sq.colours ++ cs ∧ cs.length = 3 * 15) := by
  refine ⟨keyA st, _, rfl,
    keyQ_eq (keyA st) [] _ _ _ _ _ _ _ _ _ _ rfl (by simp), rfl, ?_, ⟨_, rfl, rfl⟩,
    ⟨_, rfl, ?_⟩⟩
  · simp [keyA]
  · rw [insetColour_parity]
    split <;> simp

/-- C8, as stated, fails: on the point list of 2147483658 zeros (at least 5 points, even
length) the start index does not fit in `int`, the loop body never runs and the read of
element 0 of the empty temporary list is out of range. -/
theorem inset_beyond_int_range_counterexample :
    ({ (initial : State ℚ) with
        vertices := List.replicate 2147483658 0 } : State ℚ).vertices.length = 2147483658 ∧
    KeyCallback { (initial : State ℚ) with vertices := List.replicate 2147483658 0 } Key.Q
      = none :=
  ⟨List.length_replicate _ _, keyQ_narrowed _ (List.length_replicate _ _)⟩

/-- C8 (amended): on every point list of at least 5 points and at most 2147483648 floats,
with last five points P1..P5, an inset-iterate press keeps the list as a prefix and appends
the 5 points M1, M2, M3, M4, M1, where Mk is the componentwise midpoint of Pk and Pk+1 and the
closing point is a copy of M1.  When halving the four sums that occur is exact, the points
appended to the reset-to-square list are (-0.5, 0), (0, -0.5), (0.5, 0), (0, 0.5), (-0.5, 0). -/
theorem inset_appends_edge_midpoints (st : State F) (pre : List F)
    (x1 y1 x2 y2 x3 y3 x4 y4 x5 y5 : F)
    (hv : st.vertices = pre ++ [x1, y1, x2, y2, x3, y3, x4, y4, x5, y5])
    (hn : st.vertices.length ≤ 2147483648) :
    (∃ s, KeyCallback st Key.Q = some s ∧
      s.vertices = st.vertices ++
        [(x1 + x2) / ((2 : Int) : F), (y1 + y2) / ((2 : Int) : F),
         (x2 + x3) / ((2 : Int) : F), (y2 + y3) / ((2 : Int) : F),
         (x3 + x4) / ((2 : Int) : F), (y3 + y4) / ((2 : Int) : F),
         (x4 + x5) / ((2 : Int) : F), (y4 + y5) / ((2 : Int) : F),
         (x1 + x2) / ((2 : Int) : F), (y1 + y2) / ((2 : Int) : F)]) ∧
    ((-0.5 + -0.5 : F) / ((2 : Int) : F) = -0.5 → (-0.5 + 0.5 : F) / ((2 : Int) : F) = 0.0 →
      (0.5 + -0.5 : F) / ((2 : Int) : F) = 0.0 → (0.5 + 0.5 : F) / ((2 : Int) : F) = 0.5 →
      ∀ st0 : State F, ∃ sq s, KeyCallback st0 Key.A = some sq ∧
        KeyCallback sq Key.Q = some s ∧
        s.vertices = sq.vertices ++ [-0.5, 0.0, 0.0, -0.5, 0.5, 0.0, 0.0, 0.5, -0.5, 0.0]) := by
  constructor
  · have hp : pre.length + 10 ≤ 2147483648 := by
      have : st.vertices.length = pre.length + 10 := by simp [hv]
      omega
    exact ⟨_, keyQ_eq st pre x1 y1 x2 y2 x3 y3 x4 y4 x5 y5 hv hp, rfl⟩
  · intro hA hB hC hD st0
    refine ⟨keyA st0, _, rfl,
      keyQ_eq (keyA st0) [] _ _ _ _ _ _ _ _ _ _ rfl (by simp), ?_⟩
    simp only [hA, hB, hC, hD]

/-- Witness for C8 (amended): a list of six points over the rationals, and the square example
in exact rational arithmetic. -/
theorem inset_appends_edge_midpoints_witness :
    (∃ s : State ℚ,
      KeyCallback { (initial : State ℚ) with
          vertices := [7, 7, 0, 0, 4, 0, 4, 2, 0, 2, 0, 0] } Key.Q = some s ∧
      s.vertices = [7, 7, 0, 0, 4, 0, 4, 2, 0, 2, 0, 0] ++
        [(0 + 4) / ((2 : Int) : ℚ), (0 + 0) / ((2 : Int) : ℚ),
         (4 + 4) / ((2 : Int) : ℚ), (0 + 2) / ((2 : Int) : ℚ),
         (4 + 0) / ((2 : Int) : ℚ), (2 + 2) / ((2 : Int) : ℚ),
         (0 + 0) / ((2 : Int) : ℚ), (2 + 0) / ((2 : Int) : ℚ),
         (0 + 4) / ((2 : Int) : ℚ), (0 + 0) / ((2 : Int) : ℚ)]) ∧
    (∃ sq s : State ℚ, KeyCallback initial Key.A = some sq ∧ KeyCallback sq Key.Q = some s ∧
      s.vertices = sq.vertices ++ [-0.5, 0.0, 0.0, -0.5, 0.5, 0.0, 0.0, 0.5, -0.5, 0.0]) :=
  have t := inset_appends_edge_midpoints
    { (initial : State ℚ) with vertices := [7, 7, 0, 0, 4, 0, 4, 2, 0, 2, 0, 0] }
    [7, 7] 0 0 4 0 4 2 0 2 0 0 rfl (by decide)
  ⟨t.1, t.2 (by norm_num) (by norm_num) (by norm_num) (by norm_num) initial⟩

/-- C9, as stated, fails in two ways.  The key sequence reset-to-square, fractal-subdivide
and 107374182 extend-spiral presses from the initial state is defined and leaves 2147483658
floats; the first inset-iterate press after it, although applied to a list of at least 5
points, has no defined result, so it appends no colour entries.  And after 2147483646 rounds
of reset-to-square and inset-iterate from the initial state the counter is 2147483647; the
next inset-iterate press on the square leaves it at -2147483648, not one higher. -/
theorem inset_press_counterexample :
    (∃ st : State ℚ, run initial (Key.A :: Key.E :: List.replicate 107374182 Key.W) = some st ∧
      10 ≤ st.vertices.length ∧ KeyCallback st Key.Q = none) ∧
    (∃ st sq s : State ℚ,
      run initial (List.replicate 2147483646 [Key.A, Key.Q]).flatten = some st ∧
      KeyCallback st Key.A = some sq ∧ sq.vertices.length = 10 ∧
      sq.squareIteration = 2147483647 ∧ KeyCallback sq Key.Q = some s ∧
      s.squareIteration = -2147483648 ∧ s.squareIteration ≠ sq.squareIteration + 1) := by
  constructor
  · have h2 := run_square_fractal (initial : State ℚ)
    obtain ⟨st, hrun, hlen⟩ := run_replicate_W 107374182 _ (show
      ({ keyA (initial : State ℚ) with
        vertices := (keyA initial).vertices ++ mids (keyA initial).vertices
        colours := (keyA initial).colours ++ (List.replicate 15 [0.0, 0.0, 0.0]).flatten }
        : State ℚ).spiralLimit + 10 * ((107374182 : Nat) : Int) ≤ INT_MAX from by decide)
    have hl : st.vertices.length = 2147483658 := by
      rw [hlen]
      simp only [List.length_append, mids_length]
      rfl
    refine ⟨st, ?_, by omega, keyQ_narrowed st hl⟩
    show run initial ([Key.A, Key.E] ++ List.replicate 107374182 Key.W) = some st
    rw [run_append [Key.A, Key.E] (List.replicate 107374182 Key.W) initial, h2,
      Option.some_bind]
    exact hrun
  · obtain ⟨st, hrun, hc⟩ := run_replicate_AQ 2147483646 (initial : State ℚ)
      (by decide) (by decide)
    have hc1 : (keyA st).squareIteration = 2147483647 := by
      show st.squareIteration = 2147483647
      rw [hc]
      rfl
    have hw : wrapInt ((keyA st).squareIteration + 1) = -2147483648 := by
      rw [hc1]
      decide
    have hQ := keyQ_eq (keyA st) [] _ _ _ _ _ _ _ _ _ _ rfl (by simp)
    refine ⟨st, keyA st, _, hrun, rfl, rfl, hc1, hQ, hw, ?_⟩
    show wrapInt ((keyA st).squareIteration + 1) ≠ (keyA st).squareIteration + 1
    rw [hw, hc1]
    decide

/-- C9 (amended): an inset-iterate press on a list of at least 5 points and at most
2147483648 floats increments the square-iteration counter by exactly 1 when the counter is
below `INT_MAX` (from `INT_MAX` it goes to `INT_MIN`) and appends 15 RGB entries of one
colour, (1, 0, 0) when the incremented counter is even and (1, 1, 1) when it is odd; no other
key changes the counter; so when the state was reached from the initial state by a key
sequence whose presses all have a defined result, the counter is 1 plus the number of
inset-iterate presses in it as long as that number is at most 2147483646, and this press, the
k-th, appends (1, 0, 0) entries when k is odd and (1, 1, 1) entries when k is even. -/
theorem inset_counter_and_colour (st : State F) (h10 : 10 ≤ st.vertices.length)
    (hn : st.vertices.length ≤ 2147483648) :
    ∃ s, KeyCallback st Key.Q = some s ∧
      (INT_MIN ≤ st.squareIteration → st.squareIteration < INT_MAX →
        s.squareIteration = st.squareIteration + 1) ∧
      (st.squareIteration = INT_MAX → s.squareIteration = INT_MIN) ∧
      s.colours = st.colours ++
        (List.replicate 15
          (if Even s.squareIteration then [1.0, 0.0, 0.0] else [1.0, 1.0, 1.0])).flatten ∧
      (∀ (k : Key) (s1 : State F), k ≠ Key.Q → KeyCallback st k = some s1 →
        s1.squareIteration = st.squareIteration) ∧
      (∀ keys : List Key, run initial keys = some st →
        (keys.count Key.Q ≤ 2147483646 →
          st.squareIteration = 1 + (keys.count Key.Q : Nat)) ∧
        s.colours = st.colours ++
          (List.replicate 15
            (if Odd (keys.count Key.Q + 1) then [1.0, 0.0, 0.0]
              else [1.0, 1.0, 1.0])).flatten) := by
  have hI : INT_MAX = 2147483647 := rfl
  have hM : INT_MIN = -2147483648 := rfl
  obtain ⟨s, hq⟩ := keyQ_defined st h10 hn
  refine ⟨s, hq, ?_⟩
  obtain ⟨ft, rfl⟩ := keyQ_some st s hq
  have hcol := insetColour_parity (F := F) (wrapInt (st.squareIteration + 1))
  refine ⟨?_, ?_, ?_, ?_, ?_⟩
  · intro hlo hhi
    exact wrapInt_of_fits _ (by omega) (by omega)
  · intro hmax
    show wrapInt (st.squareIteration + 1) = INT_MIN
    rw [hmax]
    decide
  · simp only [hcol]
  · intro k s1 hk h1
    rw [KeyCallback_squareIteration st s1 k h1, if_neg hk]
  · intro keys hrun
    have hc : st.squareIteration = wrapInt (1 + (keys.count Key.Q : Nat)) :=
      run_squareIteration keys initial st hrun
        (show INT_MIN ≤ (1 : Int) from by decide) (show (1 : Int) ≤ INT_MAX from by decide)
    refine ⟨fun hk => ?_, ?_⟩
    · rw [hc]
      exact wrapInt_of_fits _ (by omega) (by omega)
    · have hpar : Even (wrapInt (st.squareIteration + 1)) ↔ Odd (keys.count Key.Q + 1) := by
        have h1 := wrapInt_even (1 + (keys.count Key.Q : Nat))
        rw [← hc] at h1
        rw [wrapInt_even, Int.even_iff, Nat.odd_iff]
        rw [Int.even_iff, Int.even_iff] at h1
        omega
      simp only [hcol]
      by_cases h : Odd (keys.count Key.Q + 1)
      · rw [if_pos h, if_pos (hpar.mpr h)]
      · rw [if_neg h, if_neg (fun c => h (hpar.mp c))]

/-- Witness for C9 (amended): the first inset-iterate press after a reset-to-square press
from the initial state; the counter goes from 1 to 2 and the entries are (1, 0, 0). -/
theorem inset_counter_and_colour_witness :
    10 ≤ (keyA (initial : State ℚ)).vertices.length ∧
    (keyA (initial : State ℚ)).vertices.length ≤ 2147483648 ∧
    run initial [Key.A] = some (keyA (initial : State ℚ)) ∧
    ∃ s : State ℚ, KeyCallback (keyA initial) Key.Q = some s ∧
      s.squareIteration = (keyA (initial : State ℚ)).squareIteration + 1 ∧
      (keyA (initial : State ℚ)).squareIteration = 1 + (([Key.A].count Key.Q : Nat) : Int) ∧
      s.colours = (keyA (initial : State ℚ)).colours ++
        (List.replicate 15
          (if Even s.squareIteration then [1.0, 0.0, 0.0] else [1.0, 1.0, 1.0])).flatten ∧
      s.colours = (keyA (initial : State ℚ)).colours ++
        (List.replicate 15
          (if Odd ([Key.A].count Key.Q + 1) then [1.0, 0.0, 0.0]
            else [1.0, 1.0, 1.0])).flatten :=
  ⟨by decide, by decide, rfl,
    (inset_counter_and_colour (keyA (initial : State ℚ)) (by decide) (by decide)).elim
      fun s hs => ⟨s, hs.1, hs.2.1 (by decide) (by decide),
        (hs.2.2.2.2.2 [Key.A] rfl).1 (by decide), hs.2.2.2.1, (hs.2.2.2.2.2 [Key.A] rfl).2⟩⟩

/-- C10, as stated, fails: on the point list of 2147483650 zeros (even length, at least 8)
the loop index reaches 2147483646 and the index of the next point, two further, cannot be
formed in `int`, so the press has no defined result. -/
theorem fractal_beyond_int_range_counterexample :
    ({ (initial : State ℚ) with
        vertices := List.replicate 2147483650 0 } : State ℚ).vertices.length = 2147483650 ∧
    Even 2147483650 ∧
    KeyCallback { (initial : State ℚ) with vertices := List.replicate 2147483650 0 } Key.E
      = none := by
  refine ⟨List.length_replicate _ _, by decide, ?_⟩
  have hb : sizeSub 2147483650 3 = 2147483647 := by decide
  have hl := midpointLoop_overflow (List.replicate 2147483650 (0 : ℚ)) 2147483647
    (by decide) 1073741823 0 [] (by decide) (by decide)
  simp only [KeyCallback, keyE, List.length_replicate, hb, hl, Option.bind_eq_bind,
    Option.none_bind]

/-- C10 (amended): on every point list of even float length n with n at most 2147483648,
a fractal-subdivide press has a defined result (all its reads, of the point list in the loop
and of elements 4 and 5 of the temporary list, are in range) exactly when n is at least 8,
and it then appends the n/2 - 1 midpoints of consecutive points.  On the 3-point list left by
reset-to-triangle the temporary list has 4 floats, so elements 4 and 5 are out of range. -/
theorem fractal_reads_in_range (st : State F) (hn : st.vertices.length ≤ 2147483648)
    (he : Even st.vertices.length) :
    ((∃ s, KeyCallback st Key.E = some s) ↔ 8 ≤ st.vertices.length) ∧
    (8 ≤ st.vertices.length → ∃ s, KeyCallback st Key.E = some s ∧
      s.vertices = st.vertices ++ mids st.vertices ∧
      (mids st.vertices).length = 2 * (st.vertices.length / 2 - 1)) ∧
    (∀ st0 : State F, ∃ tri tmp, KeyCallback st0 Key.D = some tri ∧
      midpointLoop tri.vertices (sizeSub tri.vertices.length 3) 0 [] = some tmp ∧
      tmp.length = 4 ∧ tmp[4]? = none ∧ tmp[5]? = none ∧ KeyCallback tri Key.E = none) := by
  obtain ⟨m, hm⟩ := he
  have hlen := mids_length st.vertices
  have hbig : 8 ≤ st.vertices.length → keyE st = some { st with
      vertices := st.vertices ++ mids st.vertices
      colours := st.colours ++ (List.replicate 15 [0.0, 0.0, 0.0]).flatten } :=
    fun h8 => keyE_eq st (by omega) hn (by omega)
  refine ⟨⟨?_, fun h8 => ⟨_, hbig h8⟩⟩, fun h8 => ⟨_, hbig h8, rfl, by omega⟩, ?_⟩
  · rintro ⟨s, hs⟩
    by_contra h8
    have hnone : keyE st = none := by
      by_cases h3 : 3 ≤ st.vertices.length
      · exact keyE_short st h3 hn (by omega)
      · exact keyE_tiny st (by omega)
    rw [show KeyCallback st Key.E = keyE st from rfl, hnone] at hs
    exact Option.noConfusion hs
  · intro st0
    have h3 : 3 ≤ (keyD st0).vertices.length := by simp [keyD]
    have h4 : (mids (keyD st0).vertices).length = 4 := by
      rw [mids_length]; simp [keyD]
    have hl := midpointLoop_mids (keyD st0).vertices [] [] (keyD st0).vertices rfl
      (by simp [keyD]) h3
    have hb : sizeSub (keyD st0).vertices.length 3 = (keyD st0).vertices.length - 3 :=
      sizeSub_eq _ _ h3 (by simp [keyD, SIZE_MOD])
    rw [← hb] at hl
    refine ⟨keyD st0, _, rfl, hl, ?_, ?_, ?_, ?_⟩
    · simpa using h4
    · exact List.getElem?_eq_none (by simp [h4])
    · exact List.getElem?_eq_none (by simp [h4])
    · exact keyE_short (keyD st0) h3 (by simp [keyD]) (by omega)

/-- Witness for C10 (amended): the 5-point square, on which the press appends 4 midpoints. -/
theorem fractal_reads_in_range_witness :
    (keyA (initial : State ℚ)).vertices.length ≤ 2147483648 ∧
    Even (keyA (initial : State ℚ)).vertices.length ∧
    ∃ s, KeyCallback (keyA (initial : State ℚ)) Key.E = some s ∧
      s.vertices = (keyA (initial : State ℚ)).vertices ++ mids (keyA (initial : State ℚ)).vertices ∧
      (mids (keyA (initial : State ℚ)).vertices).length
        = 2 * ((keyA (initial : State ℚ)).vertices.length / 2 - 1) :=
  ⟨by decide, by decide,
    (fractal_reads_in_range (keyA (initial : State ℚ)) (by decide) (by decide)).2.1 (by decide)⟩

/-- C11, as stated, fails: on the point list of 2147483658 ones (even length, at least 5
points) the start index (n-2)-8 is 2147483648 as a size and -2147483648 as an `int`; converted
back for the comparison it is not below n-2, so the loop leaves the temporary list empty and
the read of its element 0 is out of range. -/
theorem inset_reads_beyond_int_range_counterexample :
    ({ (initial : State ℚ) with
        vertices := List.replicate 2147483658 1 } : State ℚ).vertices.length = 2147483658 ∧
    Even 2147483658 ∧
    toInt (sizeSub (sizeSub 2147483658 2) 8) = -2147483648 ∧
    midpointLoop (List.replicate 2147483658 (1 : ℚ)) (sizeSub 2147483658 2)
      (toInt (sizeSub (sizeSub 2147483658 2) 8)) [] = some [] ∧
    KeyCallback { (initial : State ℚ) with vertices := List.replicate 2147483658 1 } Key.Q
      = none := by
  have hi : toInt (sizeSub (sizeSub 2147483658 2) 8) = -2147483648 := by decide
  refine ⟨List.length_replicate _ _, by decide, hi, ?_,
    keyQ_narrowed _ (List.length_replicate _ _)⟩
  rw [hi]
  exact midpointLoop_stop _ _ _ _ (by decide)

/-- C11 (amended): on every point list of float length n at most 2147483648 (even or odd),
an inset-iterate press has a defined result (all its reads, of `vertices[i..i+3]` in the loop
and of elements 0 and 1 of the temporary list, are in range) exactly when n is at least 10;
the loop then starts at index n - 10.  In the initial empty state the start index is -10, the
loop body runs and reads `vertices` out of range; on the 3-point list left by
reset-to-triangle the loop body does not run and element 0 of the empty temporary list is read
out of range. -/
theorem inset_reads_in_range (st : State F) (hn : st.vertices.length ≤ 2147483648) :
    ((∃ s, KeyCallback st Key.Q = some s) ↔ 10 ≤ st.vertices.length) ∧
    (10 ≤ st.vertices.length →
      toInt (sizeSub (sizeSub st.vertices.length 2) 8) = (st.vertices.length : Int) - 10) ∧
    (toInt (sizeSub (sizeSub (initial : State F).vertices.length 2) 8) = -10 ∧
      toSizeT (-10) < sizeSub (initial : State F).vertices.length 2 ∧
      (initial : State F).vertices[toSizeT (-10)]? = none ∧
      KeyCallback (initial : State F) Key.Q = none) ∧
    (∀ st0 : State F, ∃ tri, KeyCallback st0 Key.D = some tri ∧
      midpointLoop tri.vertices (sizeSub tri.vertices.length 2)
        (toInt (sizeSub (sizeSub tri.vertices.length 2) 8)) [] = some [] ∧
      KeyCallback tri Key.Q = none) := by
  have hS : SIZE_MOD = 18446744073709551616 := rfl
  have e0 : toInt (sizeSub (sizeSub 0 2) 8) = -10 := by decide
  have b0 : toSizeT (-10) < sizeSub 0 2 := by decide
  refine ⟨⟨?_, fun h10 => keyQ_defined st h10 hn⟩, ?_, ⟨e0, b0, rfl, ?_⟩, ?_⟩
  · rintro ⟨s, hs⟩
    by_contra h10
    have hnone : keyQ st = none := keyQ_short st (by omega)
    rw [show KeyCallback st Key.Q = keyQ st from rfl, hnone] at hs
    exact Option.noConfusion hs
  · intro h10
    have h2 : sizeSub st.vertices.length 2 = st.vertices.length - 2 :=
      sizeSub_eq _ _ (by omega) (by omega)
    have h8 : sizeSub (st.vertices.length - 2) 8 = st.vertices.length - 2 - 8 :=
      sizeSub_eq _ _ (by omega) (by omega)
    rw [h2, h8, toInt_natCast _ (by omega)]
    omega
  · exact keyQ_short initial (by simp [initial])
  · intro st0
    refine ⟨keyD st0, rfl, ?_, keyQ_short (keyD st0) (by simp [keyD])⟩
    have h2 : sizeSub 6 2 = 4 := by decide
    have h8 : toInt (sizeSub 4 8) = -4 := by decide
    show midpointLoop (keyD st0).vertices (sizeSub 6 2) (toInt (sizeSub (sizeSub 6 2) 8)) []
      = some []
    rw [h2, h8]
    exact midpointLoop_stop _ _ _ _ (by decide)

/-- Witness for C11 (amended): the 5-point square over the rationals, on which the press is
defined. -/
theorem inset_reads_in_range_witness :
    (keyA (initial : State ℚ)).vertices.length ≤ 2147483648 ∧
    ((∃ s, KeyCallback (keyA (initial : State ℚ)) Key.Q = some s) ↔
      10 ≤ (keyA (initial : State ℚ)).vertices.length) ∧
    toInt (sizeSub (sizeSub (keyA (initial : State ℚ)).vertices.length 2) 8) = 0 :=
  have t := inset_reads_in_range (keyA (initial : State ℚ)) (by decide)
  ⟨by decide, t.1, t.2.1 (by decide)⟩

end Claims

end Graphics
